import Mathlib

/-!
Shallow embedding of the cart state management of `src/script.js`
(functions `loadCart`, `saveCart`, `addToCart`, `removeFromCart`,
`updateQuantity`, `calculateTotal`, `getTotalItems`).

JavaScript numbers are modelled as exact rationals (`ℚ`) where they hold
prices, and as integers (`ℤ`) where they hold ids and quantities; the
in-place mutation of the `cart` array is modelled by explicit state
passing (each operation takes the current cart and returns the new one
together with its observable outcome).
-/

set_option autoImplicit false

/-- One entry of the `cart` array: the object pushed by `addToCart`
(`{id, title, price, image, quantity}`). -/
structure CartLine where
  id : Int
  title : String
  price : ℚ
  image : String
  quantity : Int
  deriving DecidableEq, Repr

/-- The `cart` variable of `script.js`: an ordered array of cart lines. -/
abbrev Cart := List CartLine

/-- The argument of `addToCart`: a product object `{id, title, price, image}`. -/
structure Product where
  id : Int
  title : String
  price : ℚ
  image : String
  deriving DecidableEq, Repr

/-- Outcome tag of a mutation, per the spec glossary: which branch the
operation took, as signalled to the view layer (notification text). -/
inductive ChangeKind where
  | itemAdded
  | quantityUpdated
  | itemRemoved
  | notFound
  deriving DecidableEq, Repr

/-- Mirror of `cart.find(item => item.id === productId)`: the first line
whose id matches, if any. -/
def findItem (pid : Int) : Cart → Option CartLine
  | [] => none
  | item :: rest => if item.id = pid then some item else findItem pid rest

/-- Mirror of the in-place `existingItem.quantity += 1` in `addToCart`:
increment the quantity of the first line whose id matches. -/
def incQuantityFirst (pid : Int) : Cart → Cart
  | [] => []
  | item :: rest =>
      if item.id = pid then { item with quantity := item.quantity + 1 } :: rest
      else item :: incQuantityFirst pid rest

/-- Mirror of the in-place `item.quantity += change` in `updateQuantity`:
overwrite the quantity of the first line whose id matches. -/
def setQuantityFirst (pid : Int) (q : Int) : Cart → Cart
  | [] => []
  | item :: rest =>
      if item.id = pid then { item with quantity := q } :: rest
      else item :: setQuantityFirst pid q rest

/-- `addToCart(product)` from `script.js`: if a line with the product's id
exists, increment its quantity (notification "Quantity updated in cart!"),
else push a new line with quantity 1 (notification "Added to cart!"). -/
def addToCart (product : Product) (cart : Cart) : Cart × ChangeKind :=
  match findItem product.id cart with
  | some _ => (incQuantityFirst product.id cart, ChangeKind.quantityUpdated)
  | none =>
      (cart ++ [{ id := product.id, title := product.title, price := product.price,
                  image := product.image, quantity := 1 }], ChangeKind.itemAdded)

/-- `removeFromCart(productId)` from `script.js`:
`cart = cart.filter(item => item.id !== productId)`, and it always shows
the notification "Item removed from cart"; the function itself returns
`undefined` (no value), so the observable result is the new cart plus the
constant notification text. -/
def removeFromCart (productId : Int) (cart : Cart) : Cart × String :=
  (cart.filter (fun item => item.id ≠ productId), "Item removed from cart")

/-- `updateQuantity(productId, change)` from `script.js`: find the line;
if absent do nothing; otherwise add `change` to its quantity and, if the
result is ≤ 0, delegate to `removeFromCart`. -/
def updateQuantity (productId change : Int) (cart : Cart) : Cart × ChangeKind :=
  match findItem productId cart with
  | none => (cart, ChangeKind.notFound)
  | some item =>
      let newQty := item.quantity + change
      if newQty ≤ 0 then ((removeFromCart productId cart).1, ChangeKind.itemRemoved)
      else (setQuantityFirst productId newQty cart, ChangeKind.quantityUpdated)

/-- `calculateTotal()` from `script.js`:
`cart.reduce((total, item) => total + item.price * item.quantity, 0)`. -/
def calculateTotal (cart : Cart) : ℚ :=
  cart.foldl (fun total item => total + item.price * (item.quantity : ℚ)) 0

/-- `getTotalItems()` from `script.js`:
`cart.reduce((total, item) => total + item.quantity, 0)`. -/
def getTotalItems (cart : Cart) : Int :=
  cart.foldl (fun total item => total + item.quantity) 0

/-- A JSON value, the parse tree produced by the runtime `JSON.parse`
(numbers modelled as exact rationals). -/
inductive JsonVal where
  | jnull
  | jbool (b : Bool)
  | jnum (q : ℚ)
  | jstr (s : String)
  | jarr (elems : List JsonVal)
  | jobj (fields : List (String × JsonVal))

/-- A string stored under the `vyndetta_cart` key, abstracted to what
`JSON.parse` does with it: a syntactically well-formed JSON text is
represented by its parse tree, and `malformed` stands for any text on
which `JSON.parse` throws a `SyntaxError`. -/
inductive StoredText where
  | wellFormed (j : JsonVal)
  | malformed

/-- The runtime `JSON.parse` on a stored text: the parse tree when the
text is well-formed JSON, `none` (a thrown `SyntaxError`) otherwise. -/
def jsonParse : StoredText → Option JsonVal
  | StoredText.wellFormed j => some j
  | StoredText.malformed => none

/-- `JSON.stringify` of one cart line: an object with the five fields in
the insertion order of the pushed literal. -/
def cartLineToJson (l : CartLine) : JsonVal :=
  JsonVal.jobj [("id", JsonVal.jnum (l.id : ℚ)), ("title", JsonVal.jstr l.title),
                ("price", JsonVal.jnum l.price), ("image", JsonVal.jstr l.image),
                ("quantity", JsonVal.jnum (l.quantity : ℚ))]

/-- `JSON.stringify(cart)`: the array of serialized lines, in order. -/
def cartToJson (cart : Cart) : JsonVal :=
  JsonVal.jarr (cart.map cartLineToJson)

/-- Read one cart line back from its parsed JSON object (the shape
`cartLineToJson` produces, with integral id and quantity). -/
def jsonToCartLine : JsonVal → Option CartLine
  | JsonVal.jobj [("id", JsonVal.jnum i), ("title", JsonVal.jstr t),
                  ("price", JsonVal.jnum p), ("image", JsonVal.jstr img),
                  ("quantity", JsonVal.jnum q)] =>
      if i.den = 1 ∧ q.den = 1 then some ⟨i.num, t, p, img, q.num⟩ else none
  | _ => none

/-- Read a list of cart lines back from parsed JSON elements, failing if
any element does not have the cart-line shape. -/
def decodeLines : List JsonVal → Option (List CartLine)
  | [] => some []
  | j :: js =>
      match jsonToCartLine j, decodeLines js with
      | some l, some ls => some (l :: ls)
      | _, _ => none

/-- Read a cart back from a parsed JSON value: an array of cart lines. -/
def jsonToCart : JsonVal → Option Cart
  | JsonVal.jarr elems => decodeLines elems
  | _ => none

/-- `saveCart()` from `script.js`: the content of the `vyndetta_cart`
storage key after `localStorage.setItem('vyndetta_cart', JSON.stringify(cart))`. -/
def saveCart (cart : Cart) : Option StoredText :=
  some (StoredText.wellFormed (cartToJson cart))

/-- `loadCart()` from `script.js` (the state change on the `cart`
variable): read the stored text; if the key is absent the cart variable
is left unchanged; otherwise `cart = JSON.parse(savedCart)`, which
installs the parse tree on success and throws (`Except.error`) on
malformed text. The cart variable holds a dynamic value, so it is
modelled at the `JsonVal` level. -/
def loadCart (stored : Option StoredText) (cart : JsonVal) : Except Unit JsonVal :=
  match stored with
  | none => Except.ok cart
  | some s =>
      match jsonParse s with
      | some j => Except.ok j
      | none => Except.error ()

/-- The ids of the cart's lines, in order. -/
def lineIds (cart : Cart) : List Int :=
  cart.map (fun l => l.id)

/-- The cart invariant of the spec's data model: ids are unique across
the sequence and every quantity is an integer ≥ 1. -/
def CartInv (cart : Cart) : Prop :=
  (lineIds cart).Nodup ∧ ∀ l ∈ cart, 1 ≤ l.quantity

instance (cart : Cart) : Decidable (CartInv cart) :=
  inferInstanceAs (Decidable ((lineIds cart).Nodup ∧ ∀ l ∈ cart, 1 ≤ l.quantity))

/-- A sequence of `addToCart` calls, left to right, keeping only the cart. -/
def addAll (ps : List Product) (cart : Cart) : Cart :=
  ps.foldl (fun c p => (addToCart p c).1) cart

/-! Helper lemmas about the embedded operations. -/

theorem mem_lineIds (pid : Int) (c : Cart) :
    pid ∈ lineIds c ↔ ∃ l ∈ c, l.id = pid := by
  simp [lineIds, List.mem_map]

theorem findItem_eq_none_iff (pid : Int) (c : Cart) :
    findItem pid c = none ↔ ∀ l ∈ c, l.id ≠ pid := by
  induction c with
  | nil => simp [findItem]
  | cons item rest ih =>
      by_cases h : item.id = pid
      · simp [findItem, h]
      · simp [findItem, h, ih]

theorem findItem_decomp (pid : Int) (pre post : List CartLine) (l : CartLine)
    (hpre : ∀ x ∈ pre, x.id ≠ pid) (hl : l.id = pid) :
    findItem pid (pre ++ l :: post) = some l := by
  induction pre with
  | nil => simp [findItem, hl]
  | cons x rest ih =>
      have hx : x.id ≠ pid := hpre x (List.mem_cons_self x rest)
      simp only [List.cons_append, findItem, if_neg hx]
      exact ih fun y hy => hpre y (List.mem_cons_of_mem x hy)

theorem findItem_eq_some_decomp (pid : Int) (c : Cart) (item : CartLine)
    (h : findItem pid c = some item) :
    ∃ pre post, c = pre ++ item :: post ∧ (∀ x ∈ pre, x.id ≠ pid) ∧ item.id = pid := by
  induction c with
  | nil => simp [findItem] at h
  | cons x rest ih =>
      by_cases hx : x.id = pid
      · simp only [findItem, if_pos hx, Option.some.injEq] at h
        exact ⟨[], rest, by simp [h], by simp, h ▸ hx⟩
      · simp only [findItem, if_neg hx] at h
        obtain ⟨pre, post, hc, hpre, hid⟩ := ih h
        refine ⟨x :: pre, post, by simp [hc], ?_, hid⟩
        intro y hy
        rcases List.mem_cons.mp hy with rfl | hy
        · exact hx
        · exact hpre y hy

theorem findItem_isSome_of_mem (pid : Int) (c : Cart)
    (h : ∃ l ∈ c, l.id = pid) :
    ∃ item, findItem pid c = some item ∧ item ∈ c ∧ item.id = pid := by
  induction c with
  | nil => simp at h
  | cons x rest ih =>
      by_cases hx : x.id = pid
      · exact ⟨x, by simp [findItem, hx], List.mem_cons_self x rest, hx⟩
      · obtain ⟨l, hl, hid⟩ := h
        rcases List.mem_cons.mp hl with rfl | hl
        · exact absurd hid hx
        · obtain ⟨item, hfind, hmem, hid2⟩ := ih ⟨l, hl, hid⟩
          exact ⟨item, by simp [findItem, hx, hfind], List.mem_cons_of_mem x hmem, hid2⟩

theorem incQuantityFirst_decomp (pid : Int) (pre post : List CartLine) (l : CartLine)
    (hpre : ∀ x ∈ pre, x.id ≠ pid) (hl : l.id = pid) :
    incQuantityFirst pid (pre ++ l :: post) =
      pre ++ { l with quantity := l.quantity + 1 } :: post := by
  induction pre with
  | nil => simp [incQuantityFirst, hl]
  | cons x rest ih =>
      have hx : x.id ≠ pid := hpre x (List.mem_cons_self x rest)
      simp only [List.cons_append, incQuantityFirst, if_neg hx, List.cons.injEq, true_and]
      exact ih fun y hy => hpre y (List.mem_cons_of_mem x hy)

theorem setQuantityFirst_decomp (pid q : Int) (pre post : List CartLine) (l : CartLine)
    (hpre : ∀ x ∈ pre, x.id ≠ pid) (hl : l.id = pid) :
    setQuantityFirst pid q (pre ++ l :: post) = pre ++ { l with quantity := q } :: post := by
  induction pre with
  | nil => simp [setQuantityFirst, hl]
  | cons x rest ih =>
      have hx : x.id ≠ pid := hpre x (List.mem_cons_self x rest)
      simp only [List.cons_append, setQuantityFirst, if_neg hx, List.cons.injEq, true_and]
      exact ih fun y hy => hpre y (List.mem_cons_of_mem x hy)

theorem setQuantityFirst_self (pid : Int) (c : Cart) (item : CartLine)
    (h : findItem pid c = some item) :
    setQuantityFirst pid item.quantity c = c := by
  induction c with
  | nil => simp [findItem] at h
  | cons x rest ih =>
      by_cases hx : x.id = pid
      · simp only [findItem, if_pos hx, Option.some.injEq] at h
        subst h
        simp only [setQuantityFirst, if_pos hx]
      · simp only [findItem, if_neg hx] at h
        simp [setQuantityFirst, hx, ih h]

theorem foldl_add_map {M : Type} [AddCommMonoid M] (f : CartLine → M) (c : Cart) :
    ∀ a : M, c.foldl (fun t l => t + f l) a = a + (c.map f).sum := by
  induction c with
  | nil => intro a; simp
  | cons l ls ih => intro a; simp [List.foldl_cons, ih, add_assoc]

theorem getTotalItems_eq_sum (c : Cart) :
    getTotalItems c = (c.map (fun l => l.quantity)).sum := by
  simpa using foldl_add_map (fun l => l.quantity) c 0

theorem calculateTotal_eq_sum (c : Cart) :
    calculateTotal c = (c.map (fun l => l.price * (l.quantity : ℚ))).sum := by
  simpa using foldl_add_map (fun l => l.price * (l.quantity : ℚ)) c 0

theorem lineIds_append (c d : Cart) : lineIds (c ++ d) = lineIds c ++ lineIds d := by
  simp [lineIds]

theorem cartInv_replace (pre post : List CartLine) (l l2 : CartLine)
    (hid : l2.id = l.id) (hq : 1 ≤ l2.quantity)
    (h : CartInv (pre ++ l :: post)) : CartInv (pre ++ l2 :: post) := by
  obtain ⟨hnodup, hquant⟩ := h
  constructor
  · have : lineIds (pre ++ l2 :: post) = lineIds (pre ++ l :: post) := by
      simp [lineIds, hid]
    rw [this]
    exact hnodup
  · intro x hx
    rcases List.mem_append.mp hx with hx | hx
    · exact hquant x (List.mem_append.mpr (Or.inl hx))
    · rcases List.mem_cons.mp hx with rfl | hx
      · exact hq
      · exact hquant x (List.mem_append.mpr (Or.inr (List.mem_cons_of_mem l hx)))

theorem cartInv_filter (p : CartLine → Bool) (c : Cart) (h : CartInv c) :
    CartInv (c.filter p) := by
  obtain ⟨hnodup, hquant⟩ := h
  constructor
  · simp only [lineIds] at hnodup ⊢
    exact ((List.filter_sublist c).map (fun l => l.id)).nodup hnodup
  · intro x hx
    exact hquant x (List.mem_of_mem_filter hx)

theorem cartInv_append_new (c : Cart) (l : CartLine)
    (hfresh : l.id ∉ lineIds c) (hq : 1 ≤ l.quantity) (h : CartInv c) :
    CartInv (c ++ [l]) := by
  obtain ⟨hnodup, hquant⟩ := h
  constructor
  · rw [lineIds_append, List.nodup_append]
    refine ⟨hnodup, by simp [lineIds], fun a ha hb => ?_⟩
    have ha2 : a = l.id := by simpa [lineIds] using hb
    exact hfresh (ha2 ▸ ha)
  · intro x hx
    rcases List.mem_append.mp hx with hx | hx
    · exact hquant x hx
    · rcases List.mem_singleton.mp hx with rfl
      exact hq

theorem length_incQuantityFirst (pid : Int) (c : Cart) :
    (incQuantityFirst pid c).length = c.length := by
  induction c with
  | nil => rfl
  | cons x rest ih =>
      by_cases hx : x.id = pid
      · simp [incQuantityFirst, hx]
      · simp [incQuantityFirst, hx, ih]

theorem addToCart_of_absent (p : Product) (c : Cart)
    (h : ∀ l ∈ c, l.id ≠ p.id) :
    addToCart p c = (c ++ [{ id := p.id, title := p.title, price := p.price,
                             image := p.image, quantity := 1 }], ChangeKind.itemAdded) := by
  have hfind : findItem p.id c = none := (findItem_eq_none_iff p.id c).mpr h
  simp [addToCart, hfind]

theorem addToCart_of_present (p : Product) (pre post : List CartLine) (l : CartLine)
    (hpre : ∀ x ∈ pre, x.id ≠ p.id) (hl : l.id = p.id) :
    addToCart p (pre ++ l :: post) =
      (pre ++ { l with quantity := l.quantity + 1 } :: post, ChangeKind.quantityUpdated) := by
  have hfind := findItem_decomp p.id pre post l hpre hl
  simp [addToCart, hfind, incQuantityFirst_decomp p.id pre post l hpre hl]

theorem getTotalItems_addToCart (p : Product) (c : Cart) :
    getTotalItems ((addToCart p c).1) = getTotalItems c + 1 := by
  cases hfind : findItem p.id c with
  | none =>
      simp only [addToCart, hfind]
      rw [getTotalItems_eq_sum, getTotalItems_eq_sum]
      simp
  | some item =>
      obtain ⟨pre, post, hc, hpre, hid⟩ := findItem_eq_some_decomp p.id c item hfind
      subst hc
      rw [addToCart_of_present p pre post item hpre hid]
      rw [getTotalItems_eq_sum, getTotalItems_eq_sum]
      simp
      ring

theorem length_addToCart_present (p : Product) (c : Cart)
    (h : ∃ l ∈ c, l.id = p.id) :
    ((addToCart p c).1).length = c.length := by
  obtain ⟨item, hfind, _, _⟩ := findItem_isSome_of_mem p.id c h
  simp [addToCart, hfind, length_incQuantityFirst]

theorem getTotalItems_addAll (ps : List Product) :
    ∀ c : Cart, getTotalItems (addAll ps c) = getTotalItems c + ps.length := by
  induction ps with
  | nil => intro c; simp [addAll]
  | cons p ps ih =>
      intro c
      have : addAll (p :: ps) c = addAll ps ((addToCart p c).1) := rfl
      rw [this, ih ((addToCart p c).1), getTotalItems_addToCart]
      simp only [List.length_cons]
      push_cast
      ring

theorem lineIds_addToCart_absent (p : Product) (c : Cart)
    (h : ∀ l ∈ c, l.id ≠ p.id) :
    lineIds ((addToCart p c).1) = lineIds c ++ [p.id] := by
  rw [addToCart_of_absent p c h]
  simp [lineIds]

theorem addAll_length_of_fresh (ps : List Product) :
    ∀ c : Cart, (ps.map (fun p => p.id)).Nodup → (∀ p ∈ ps, p.id ∉ lineIds c) →
    (addAll ps c).length = c.length + ps.length := by
  induction ps with
  | nil => intro c _ _; simp [addAll]
  | cons p ps ih =>
      intro c hnodup hfresh
      have hp : p.id ∉ lineIds c := hfresh p (List.mem_cons_self p ps)
      have habs : ∀ l ∈ c, l.id ≠ p.id := by
        intro l hl he
        exact hp ((mem_lineIds p.id c).mpr ⟨l, hl, he⟩)
      have hstep : addAll (p :: ps) c = addAll ps ((addToCart p c).1) := rfl
      have hids : lineIds ((addToCart p c).1) = lineIds c ++ [p.id] :=
        lineIds_addToCart_absent p c habs
      have hlen : ((addToCart p c).1).length = c.length + 1 := by
        rw [addToCart_of_absent p c habs]
        simp
      have hnodup2 : (ps.map (fun q => q.id)).Nodup := (List.nodup_cons.mp hnodup).2
      have hhead : p.id ∉ ps.map (fun q => q.id) := (List.nodup_cons.mp hnodup).1
      have hfresh2 : ∀ q ∈ ps, q.id ∉ lineIds ((addToCart p c).1) := by
        intro q hq
        rw [hids]
        intro hmem
        rcases List.mem_append.mp hmem with hmem | hmem
        · exact hfresh q (List.mem_cons_of_mem p hq) hmem
        · rcases List.mem_singleton.mp hmem with he
          exact hhead (List.mem_map.mpr ⟨q, hq, he⟩)
      rw [hstep, ih ((addToCart p c).1) hnodup2 hfresh2, hlen]
      simp
      ring

theorem jsonToCartLine_cartLineToJson (l : CartLine) :
    jsonToCartLine (cartLineToJson l) = some l := by
  simp [cartLineToJson, jsonToCartLine, Rat.den_intCast, Rat.num_intCast]

theorem decodeLines_map (c : Cart) :
    decodeLines (c.map cartLineToJson) = some c := by
  induction c with
  | nil => rfl
  | cons l ls ih =>
      simp [decodeLines, jsonToCartLine_cartLineToJson, ih]

theorem jsonToCart_cartToJson (c : Cart) : jsonToCart (cartToJson c) = some c := by
  simp [jsonToCart, cartToJson, decodeLines_map]

theorem updateQuantity_of_absent (pid delta : Int) (c : Cart)
    (h : ∀ l ∈ c, l.id ≠ pid) :
    updateQuantity pid delta c = (c, ChangeKind.notFound) := by
  have hfind : findItem pid c = none := (findItem_eq_none_iff pid c).mpr h
  simp [updateQuantity, hfind]

theorem updateQuantity_of_remove (pid delta : Int) (pre post : List CartLine) (l : CartLine)
    (hpre : ∀ x ∈ pre, x.id ≠ pid) (hl : l.id = pid) (hq : l.quantity + delta ≤ 0) :
    updateQuantity pid delta (pre ++ l :: post) =
      ((removeFromCart pid (pre ++ l :: post)).1, ChangeKind.itemRemoved) := by
  have hfind := findItem_decomp pid pre post l hpre hl
  simp [updateQuantity, hfind, hq]

theorem updateQuantity_of_set (pid delta : Int) (pre post : List CartLine) (l : CartLine)
    (hpre : ∀ x ∈ pre, x.id ≠ pid) (hl : l.id = pid) (hq : 0 < l.quantity + delta) :
    updateQuantity pid delta (pre ++ l :: post) =
      (pre ++ { l with quantity := l.quantity + delta } :: post,
       ChangeKind.quantityUpdated) := by
  have hfind := findItem_decomp pid pre post l hpre hl
  have hnot : ¬ l.quantity + delta ≤ 0 := not_le.mpr hq
  simp [updateQuantity, hfind, hnot,
        setQuantityFirst_decomp pid (l.quantity + delta) pre post l hpre hl]

/-! The claims. -/

/-- Claim C1, counterexample: the claim says `load()` never fails and
degrades malformed persisted data to an empty cart, but `loadCart` has no
try/catch around `JSON.parse`, so on a stored value that is present but
unparsable the `SyntaxError` propagates out of `loadCart` instead of an
empty cart being installed. -/
theorem loadCart_malformed_raises :
    loadCart (some StoredText.malformed) (cartToJson []) = Except.error () := rfl

/-- Claim C1, amended: when the stored value is absent `loadCart` leaves
the in-memory cart unchanged (so the initially empty cart stays empty);
when a stored value is present and parses, the parse result replaces the
in-memory cart; when it is present but unparsable, `JSON.parse` throws
and `loadCart` propagates the error rather than installing an empty
cart. -/
theorem loadCart_amended (j cart : JsonVal) :
    loadCart none cart = Except.ok cart
  ∧ loadCart (some (StoredText.wellFormed j)) cart = Except.ok j
  ∧ loadCart (some StoredText.malformed) cart = Except.error () :=
  ⟨rfl, rfl, rfl⟩

/-- Claim C2: `addToCart(product)` increments the quantity of the first
line with matching id by exactly 1 and reports a quantity update when
such a line is present, and otherwise appends a new line with quantity 1
at the end and reports an item addition. -/
theorem addToCart_spec (p : Product) (c : Cart) :
    ((∀ l ∈ c, l.id ≠ p.id) →
       addToCart p c = (c ++ [{ id := p.id, title := p.title, price := p.price,
                                image := p.image, quantity := 1 }], ChangeKind.itemAdded))
  ∧ (∀ (pre post : List CartLine) (l : CartLine),
       c = pre ++ l :: post → (∀ x ∈ pre, x.id ≠ p.id) → l.id = p.id →
       addToCart p c = (pre ++ { l with quantity := l.quantity + 1 } :: post,
                        ChangeKind.quantityUpdated)) := by
  constructor
  · exact addToCart_of_absent p c
  · intro pre post l hc hpre hl
    subst hc
    exact addToCart_of_present p pre post l hpre hl

/-- Witness for C2: both branches at concrete inputs. -/
theorem addToCart_spec_witness :
    addToCart ⟨1, "A", 10, "u"⟩ [⟨2, "B", 5, "v", 3⟩] =
      ([⟨2, "B", 5, "v", 3⟩, ⟨1, "A", 10, "u", 1⟩], ChangeKind.itemAdded)
  ∧ addToCart ⟨2, "B", 5, "v"⟩ [⟨2, "B", 5, "v", 3⟩] =
      ([⟨2, "B", 5, "v", 4⟩], ChangeKind.quantityUpdated) :=
  ⟨(addToCart_spec ⟨1, "A", 10, "u"⟩ [⟨2, "B", 5, "v", 3⟩]).1 (by decide),
   (addToCart_spec ⟨2, "B", 5, "v"⟩ [⟨2, "B", 5, "v", 3⟩]).2 [] []
     ⟨2, "B", 5, "v", 3⟩ rfl (by decide) rfl⟩

/-- Claim C3: `updateQuantity(id, delta)` is a no-op reporting not-found
when no line with that id exists; when a line exists and its old quantity
plus delta is ≤ 0 the line is removed entirely (the same filtering as
`removeFromCart`) reporting removal; otherwise the line's quantity is set
to the new value reporting a quantity update. -/
theorem updateQuantity_spec (pid delta : Int) (c : Cart) :
    ((∀ l ∈ c, l.id ≠ pid) → updateQuantity pid delta c = (c, ChangeKind.notFound))
  ∧ (∀ (pre post : List CartLine) (l : CartLine),
       c = pre ++ l :: post → (∀ x ∈ pre, x.id ≠ pid) → l.id = pid →
         (l.quantity + delta ≤ 0 →
            updateQuantity pid delta c =
              ((removeFromCart pid c).1, ChangeKind.itemRemoved))
       ∧ (0 < l.quantity + delta →
            updateQuantity pid delta c =
              (pre ++ { l with quantity := l.quantity + delta } :: post,
               ChangeKind.quantityUpdated))) := by
  constructor
  · exact updateQuantity_of_absent pid delta c
  · intro pre post l hc hpre hl
    subst hc
    exact ⟨updateQuantity_of_remove pid delta pre post l hpre hl,
           updateQuantity_of_set pid delta pre post l hpre hl⟩

/-- Witness for C3: all three branches at concrete inputs. -/
theorem updateQuantity_spec_witness :
    updateQuantity 9 (-1) [⟨1, "A", 10, "u", 1⟩] = ([⟨1, "A", 10, "u", 1⟩], ChangeKind.notFound)
  ∧ updateQuantity 1 (-1) [⟨1, "A", 10, "u", 1⟩] = ([], ChangeKind.itemRemoved)
  ∧ updateQuantity 1 1 [⟨1, "A", 10, "u", 1⟩] =
      ([⟨1, "A", 10, "u", 2⟩], ChangeKind.quantityUpdated) :=
  ⟨(updateQuantity_spec 9 (-1) [⟨1, "A", 10, "u", 1⟩]).1 (by decide),
   ((updateQuantity_spec 1 (-1) [⟨1, "A", 10, "u", 1⟩]).2 [] [] ⟨1, "A", 10, "u", 1⟩
      rfl (by decide) rfl).1 (by decide),
   ((updateQuantity_spec 1 1 [⟨1, "A", 10, "u", 1⟩]).2 [] [] ⟨1, "A", 10, "u", 1⟩
      rfl (by decide) rfl).2 (by decide)⟩

/-- Claim C4, counterexample: the claim says `removeItem` returns a
boolean that is `false` when no line with the id is present, but
`removeFromCart` returns no value and its observable outcome (new cart
plus notification) on an absent id carries the very same "Item removed
from cart" signal as an actual removal, so no removed/not-removed
distinction is reported. -/
theorem removeFromCart_no_bool_report :
    (removeFromCart 1 ([] : Cart)).2 = (removeFromCart 1 [⟨1, "A", 10, "u", 1⟩]).2
  ∧ (removeFromCart 1 ([] : Cart)).1 = []
  ∧ (removeFromCart 1 [⟨1, "A", 10, "u", 1⟩]).1 = [] :=
  ⟨rfl, rfl, by decide⟩

/-- Claim C4, amended: `removeFromCart(id)` removes every line with
matching id, is a no-op on the cart (and never raises) when no line with
that id is present, but it returns no boolean: it unconditionally signals
"Item removed from cart" whether or not a line was removed. -/
theorem removeFromCart_amended (pid : Int) (c : Cart) :
    removeFromCart pid c = (c.filter (fun l => l.id ≠ pid), "Item removed from cart")
  ∧ ((∀ l ∈ c, l.id ≠ pid) → (removeFromCart pid c).1 = c) := by
  refine ⟨rfl, fun h => ?_⟩
  simp only [removeFromCart]
  rw [List.filter_eq_self]
  intro a ha
  simpa using h a ha

/-- Witness for C4's amended claim: removal of an absent id leaves a
concrete cart unchanged. -/
theorem removeFromCart_amended_witness :
    (removeFromCart 3 [⟨2, "B", 5, "v", 3⟩]).1 = [⟨2, "B", 5, "v", 3⟩] :=
  (removeFromCart_amended 3 [⟨2, "B", 5, "v", 3⟩]).2 (by decide)

/-- Claim C5: `calculateTotal()` equals the sum over all lines of
price times quantity, `getTotalItems()` equals the sum of the quantities,
and both are 0 on the empty cart; both are pure functions of the cart. -/
theorem totals_spec (c : Cart) :
    calculateTotal c = (c.map (fun l => l.price * (l.quantity : ℚ))).sum
  ∧ getTotalItems c = (c.map (fun l => l.quantity)).sum
  ∧ calculateTotal [] = 0 ∧ getTotalItems [] = 0 :=
  ⟨calculateTotal_eq_sum c, getTotalItems_eq_sum c, rfl, rfl⟩

/-- Claim C6: after any sequence of `addToCart` calls on the empty cart
the item count equals the number of calls; with pairwise distinct ids the
number of lines also equals the number of calls; and an add with an
already-present id still raises the item count by 1 while leaving the
number of lines unchanged. -/
theorem addAll_count_spec (ps : List Product) :
    getTotalItems (addAll ps []) = (ps.length : Int)
  ∧ ((ps.map (fun p => p.id)).Nodup → (addAll ps []).length = ps.length)
  ∧ (∀ (p : Product) (c : Cart), (∃ l ∈ c, l.id = p.id) →
       getTotalItems ((addToCart p c).1) = getTotalItems c + 1
     ∧ ((addToCart p c).1).length = c.length) := by
  refine ⟨?_, ?_, ?_⟩
  · have h0 : getTotalItems ([] : Cart) = 0 := rfl
    have h := getTotalItems_addAll ps []
    rw [h0, zero_add] at h
    exact h
  · intro hnodup
    simpa using addAll_length_of_fresh ps [] hnodup (by simp [lineIds])
  · intro p c h
    exact ⟨getTotalItems_addToCart p c, length_addToCart_present p c h⟩

/-- Witness for C6: two distinct adds yield two lines, and re-adding a
present id raises the item count by one. -/
theorem addAll_count_spec_witness :
    (addAll [⟨1, "A", 10, "u"⟩, ⟨2, "B", 5, "v"⟩] []).length = 2
  ∧ getTotalItems ((addToCart ⟨1, "A", 10, "u"⟩ [⟨1, "A", 10, "u", 1⟩]).1) =
      getTotalItems [⟨1, "A", 10, "u", 1⟩] + 1 :=
  ⟨(addAll_count_spec [⟨1, "A", 10, "u"⟩, ⟨2, "B", 5, "v"⟩]).2.1 (by decide),
   ((addAll_count_spec []).2.2 ⟨1, "A", 10, "u"⟩ [⟨1, "A", 10, "u", 1⟩]
      ⟨⟨1, "A", 10, "u", 1⟩, List.mem_cons_self _ _, rfl⟩).1⟩

/-- Claim C7: `saveCart()` followed by `loadCart()` on the resulting
store installs exactly the serialized cart, and reading that value back
as a cart yields the same lines with identical id, title, price, image
and quantity fields, in the same order. -/
theorem save_load_roundtrip (c : Cart) (dyn : JsonVal) :
    loadCart (saveCart c) dyn = Except.ok (cartToJson c)
  ∧ jsonToCart (cartToJson c) = some c :=
  ⟨rfl, jsonToCart_cartToJson c⟩

/-- Claim C8: every cart operation preserves the cart invariant (ids
unique across the sequence, every quantity an integer ≥ 1). -/
theorem cart_inv_preserved (p : Product) (pid delta : Int) (c : Cart) (h : CartInv c) :
    CartInv ((addToCart p c).1) ∧ CartInv ((removeFromCart pid c).1)
  ∧ CartInv ((updateQuantity pid delta c).1) := by
  refine ⟨?_, cartInv_filter _ c h, ?_⟩
  · cases hfind : findItem p.id c with
    | none =>
        have habs := (findItem_eq_none_iff p.id c).mp hfind
        rw [addToCart_of_absent p c habs]
        have hfresh : p.id ∉ lineIds c := fun hmem => by
          obtain ⟨l, hl, hid⟩ := (mem_lineIds p.id c).mp hmem
          exact habs l hl hid
        exact cartInv_append_new c _ hfresh le_rfl h
    | some item =>
        obtain ⟨pre, post, hc, hpre, hid⟩ := findItem_eq_some_decomp p.id c item hfind
        subst hc
        rw [addToCart_of_present p pre post item hpre hid]
        have hq : 1 ≤ item.quantity := h.2 item (by simp)
        refine cartInv_replace pre post item _ rfl ?_ h
        show 1 ≤ item.quantity + 1
        omega
  · cases hfind : findItem pid c with
    | none =>
        have habs := (findItem_eq_none_iff pid c).mp hfind
        rw [updateQuantity_of_absent pid delta c habs]
        exact h
    | some item =>
        obtain ⟨pre, post, hc, hpre, hid⟩ := findItem_eq_some_decomp pid c item hfind
        subst hc
        by_cases hq : item.quantity + delta ≤ 0
        · rw [updateQuantity_of_remove pid delta pre post item hpre hid hq]
          exact cartInv_filter _ _ h
        · rw [updateQuantity_of_set pid delta pre post item hpre hid (by omega)]
          refine cartInv_replace pre post item _ rfl ?_ h
          show 1 ≤ item.quantity + delta
          omega

/-- Witness for C8: the invariant holds after an add on a concrete
invariant-satisfying cart. -/
theorem cart_inv_preserved_witness :
    CartInv ((addToCart ⟨1, "A", 10, "u"⟩ [⟨2, "B", 5, "v", 2⟩]).1) :=
  (cart_inv_preserved ⟨1, "A", 10, "u"⟩ 2 (-1) [⟨2, "B", 5, "v", 2⟩] (by decide)).1

/-- Claim C9: when a line with the product's id is already present,
`addToCart` changes only that line's quantity: its title, price and image
keep the values captured when it was first added (the incoming product's
fields are not re-applied) and every other line is unchanged. -/
theorem addToCart_frame (p : Product) (pre post : List CartLine) (l : CartLine)
    (hpre : ∀ x ∈ pre, x.id ≠ p.id) (hl : l.id = p.id) :
    ∃ l2 : CartLine,
      (addToCart p (pre ++ l :: post)).1 = pre ++ l2 :: post
      ∧ l2.id = l.id ∧ l2.title = l.title ∧ l2.price = l.price
      ∧ l2.image = l.image ∧ l2.quantity = l.quantity + 1 := by
  refine ⟨{ l with quantity := l.quantity + 1 }, ?_, rfl, rfl, rfl, rfl, rfl⟩
  rw [addToCart_of_present p pre post l hpre hl]

/-- Witness for C9: a product with a different title, price and image
than the stored line only bumps that line's quantity. -/
theorem addToCart_frame_witness :
    ∃ l2 : CartLine,
      (addToCart ⟨1, "NEW", 99, "w"⟩ ([⟨2, "B", 5, "v", 3⟩] ++ ⟨1, "A", 10, "u", 2⟩ :: [])).1
        = [⟨2, "B", 5, "v", 3⟩] ++ l2 :: []
      ∧ l2.id = 1 ∧ l2.title = "A" ∧ l2.price = 10 ∧ l2.image = "u" ∧ l2.quantity = 3 :=
  addToCart_frame ⟨1, "NEW", 99, "w"⟩ [⟨2, "B", 5, "v", 3⟩] [] ⟨1, "A", 10, "u", 2⟩
    (by decide) rfl

/-- Claim C10: on a cart whose quantities are all ≥ 1, a zero-delta
update of a present id leaves the cart exactly unchanged and reports a
quantity update. -/
theorem updateQuantity_zero_delta (pid : Int) (c : Cart)
    (hmem : ∃ l ∈ c, l.id = pid) (hq : ∀ l ∈ c, 1 ≤ l.quantity) :
    updateQuantity pid 0 c = (c, ChangeKind.quantityUpdated) := by
  obtain ⟨item, hfind, hin, _⟩ := findItem_isSome_of_mem pid c hmem
  have h1 : 1 ≤ item.quantity := hq item hin
  have hnot : ¬ item.quantity + 0 ≤ 0 := by omega
  simp only [updateQuantity, hfind]
  rw [if_neg hnot]
  have hz : item.quantity + 0 = item.quantity := by ring
  rw [hz, setQuantityFirst_self pid c item hfind]

/-- Witness for C10: zero-delta update on a concrete one-line cart. -/
theorem updateQuantity_zero_delta_witness :
    updateQuantity 1 0 [⟨1, "A", 10, "u", 2⟩] =
      ([⟨1, "A", 10, "u", 2⟩], ChangeKind.quantityUpdated) :=
  updateQuantity_zero_delta 1 [⟨1, "A", 10, "u", 2⟩]
    ⟨⟨1, "A", 10, "u", 2⟩, List.mem_cons_self _ _, rfl⟩ (by decide)
